import Mathlib

/-
Verification of the Pharo refactoring agent service.

Python strings are modelled as `List Char`; the functions below are
shallow embeddings of the corresponding Python functions in
app/services/agent_service.py, app/models.py and app/config.py.
-/

namespace PharoAgent

/-- Single quote character used by the Pharo string-literal escaping rule. -/
def quoteChar : Char := '\''

/-- Line-boundary characters recognised by Python str.splitlines:
LF, CR, VT, FF, FS, GS, RS, NEL, LINE SEPARATOR, PARAGRAPH SEPARATOR
(CRLF is handled as a single boundary by the splitter itself). -/
def isLineBoundary (c : Char) : Bool :=
  c.toNat = 0x0a || c.toNat = 0x0d || c.toNat = 0x0b || c.toNat = 0x0c ||
  c.toNat = 0x1c || c.toNat = 0x1d || c.toNat = 0x1e ||
  c.toNat = 0x85 || c.toNat = 0x2028 || c.toNat = 0x2029

/-- Worker for the embedding of Python str.splitlines: `cur` is the reversed
accumulator of the current line. A trailing unterminated line is emitted;
a terminator at end of input does not create an extra empty line. -/
def splitlinesGo : List Char → List Char → List (List Char)
  | cur, [] => if cur.isEmpty then [] else [cur.reverse]
  | cur, '\r' :: '\n' :: rest => cur.reverse :: splitlinesGo [] rest
  | cur, c :: rest =>
      if isLineBoundary c then cur.reverse :: splitlinesGo [] rest
      else splitlinesGo (c :: cur) rest

/-- Embedding of Python str.splitlines (without keepends). -/
def pySplitlines (s : List Char) : List (List Char) :=
  splitlinesGo [] s

/-- Embedding of Python str.replace for a single-character pattern:
every occurrence of `old` is replaced by the string `new`. -/
def pyReplaceChar (old : Char) (new : List Char) : List Char → List Char
  | [] => []
  | c :: rest => (if c = old then new else [c]) ++ pyReplaceChar old new rest

/-- Embedding of Python sep.join(strings). -/
def pyJoin (sep : List Char) : List (List Char) → List Char
  | [] => []
  | [x] => x
  | x :: xs => x ++ sep ++ pyJoin sep xs

/-- The fixed separator token joined between quoted lines
(source line 88: ", Character cr asString, "). -/
def crSeparator : List Char := (", Character cr asString, ").toList

/-- The fixed infix of the generated script (part of the f-string on
source line 89). -/
def compileInfix : List Char := (" compile: (").toList

/-- Escaping of one line (source line 87): every embedded quote character
is doubled. -/
def escapedLine (line : List Char) : List Char :=
  pyReplaceChar quoteChar [quoteChar, quoteChar] line

/-- One quoted Pharo string literal for one line (source line 87). -/
def pharoLineLiteral (line : List Char) : List Char :=
  quoteChar :: (escapedLine line ++ [quoteChar])

/-- Embedding of AgentService.generate_compilation_script
(agent_service.py lines 71-91): empty code returns the empty string;
otherwise the code is split into lines, each line becomes a quoted
literal with doubled quotes, the literals are joined with the
Character cr separator, and the whole is wrapped as
`class_name compile: (...)`. -/
def generate_compilation_script (class_name code : List Char) : List Char :=
  if code = [] then []
  else
    class_name ++ compileInfix ++
      pyJoin crSeparator ((pySplitlines code).map pharoLineLiteral) ++ [')']

/-- Conceptual decoder, segment scanner: reads the body of one quoted
Pharo string literal after its opening quote. A doubled quote is
un-doubled into one literal quote character; the first un-doubled quote
closes the literal and the rest of the input is returned. -/
def parseQuoted : List Char → Option (List Char × List Char)
  | [] => none
  | c :: rest =>
    if c = quoteChar then
      match rest with
      | c2 :: rest2 =>
        if c2 = quoteChar then
          (parseQuoted rest2).map (fun p => (quoteChar :: p.1, p.2))
        else some ([], rest)
      | [] => some ([], [])
    else (parseQuoted rest).map (fun p => (c :: p.1, p.2))

/-- Conceptual decoder, segment list: parses one or more quoted literals
joined by the Character cr separator; `fuel` bounds the recursion depth
(one unit per segment). -/
def decodeSegmentsAux : Nat → List Char → Option (List (List Char))
  | 0, _ => none
  | _ + 1, [] => none
  | fuel + 1, c :: rest =>
    if c = quoteChar then
      match parseQuoted rest with
      | none => none
      | some (seg, rest2) =>
        if rest2 = [] then some [seg]
        else if crSeparator.isPrefixOf rest2 then
          match decodeSegmentsAux fuel (rest2.drop crSeparator.length) with
          | none => none
          | some segs => some (seg :: segs)
        else none
    else none

/-- Conceptual decoder for the output of generate_compilation_script:
strips the `class_name compile: (` head and the closing parenthesis,
then extracts the quoted segments joined by the separator, un-doubling
every doubled quote character in each segment. -/
def decodeScript (class_name s : List Char) : Option (List (List Char)) :=
  if (class_name ++ compileInfix).isPrefixOf s then
    let inner := s.drop (class_name ++ compileInfix).length
    if inner.getLast? = some ')' then
      decodeSegmentsAux inner.length inner.dropLast
    else none
  else none

/-- Spec-side formulation (spec sections 4.1 and 6) of quote escaping:
every embedded quote character is doubled, with no other escape
mechanism. Stated independently of the source embedding for the
shape-refinement comparison. -/
def specDoubleQuotes (line : List Char) : List Char :=
  line.flatMap (fun c => if c = quoteChar then [quoteChar, quoteChar] else [c])

/-- Spec-side formulation of one quoted line literal. -/
def specLineLiteral (line : List Char) : List Char :=
  [quoteChar] ++ specDoubleQuotes line ++ [quoteChar]

/-- Spec-side formulation of the whole compile expression: the quoted
line literals joined by the exact separator, wrapped as
`class_name compile: (...)`. -/
def specCompileScript (class_name : List Char) (lines : List (List Char)) : List Char :=
  class_name ++ (" compile: (").toList ++
    List.intercalate crSeparator (lines.map specLineLiteral) ++ [')']

/-- A raised Python exception, reduced to its str(e) message. -/
structure PyException where
  msg : List Char

/-- The dictionary returned by AgentService.refactor_method
(agent_service.py lines 303-316); `α` is the pipeline response payload. -/
structure RunRecord (α : Type) where
  success : Bool
  class_name : List Char
  method_name : List Char
  result : Option α
  error : Option (List Char)

/-- The prompt f-string of refactor_method (source line 298). -/
def promptOf (class_name method_name : List Char) : List Char :=
  ("Review and refactor the method ").toList ++ [quoteChar] ++ method_name ++
    [quoteChar] ++ (" in class ").toList ++ [quoteChar] ++ class_name ++
    [quoteChar] ++ ['.']

/-- Embedding of the body of AgentService.refactor_method
(agent_service.py lines 296-316): the whole pipeline run (pipeline
construction, runner creation and run_debug, any of which may raise) is
abstracted as `runPipeline`, a fallible function of the prompt. The
try/except converts a raised exception into the structured failure
record; the success path returns the structured success record. The
return type is total: no exception value escapes. -/
def refactor_method (α : Type) (class_name method_name : List Char)
    (runPipeline : List Char → Except PyException α) : RunRecord α :=
  match runPipeline (promptOf class_name method_name) with
  | Except.ok response => ⟨true, class_name, method_name, some response, none⟩
  | Except.error e => ⟨false, class_name, method_name, none, some e.msg⟩

/-- Program position of one caller of refactor_method relative to the
exclusive asyncio lock: before the call, awaiting the lock, inside the
locked section (where all pipeline work happens), returned. -/
inductive TaskPhase where
  | outside
  | waiting
  | critical
  | finished
deriving DecidableEq

/-- Interleaved state of the Executor lock and two concurrent
refactor_method callers. `lockHeld` is the state of the asyncio.Lock
created in AgentService.__init__ (source line 32). -/
structure ExecutorState where
  lockHeld : Bool
  pc1 : TaskPhase
  pc2 : TaskPhase
deriving DecidableEq

/-- Embedding of AgentService.is_busy (source lines 318-325): reports
whether the lock is currently held. -/
def is_busy (s : ExecutorState) : Bool := s.lockHeld

/-- Small-step semantics of two concurrent refactor_method calls
(source lines 296-316): entering the function reaches the
`async with self._lock` suspension point; the lock is acquired only
when free; the locked section is left through either the success return
(line 303) or the exception-handler return (line 311), and both release
the lock before returning. -/
inductive LockStep : ExecutorState → ExecutorState → Prop where
  | call1 (l : Bool) (p : TaskPhase) :
      LockStep ⟨l, TaskPhase.outside, p⟩ ⟨l, TaskPhase.waiting, p⟩
  | acquire1 (p : TaskPhase) :
      LockStep ⟨false, TaskPhase.waiting, p⟩ ⟨true, TaskPhase.critical, p⟩
  | returnSuccess1 (p : TaskPhase) :
      LockStep ⟨true, TaskPhase.critical, p⟩ ⟨false, TaskPhase.finished, p⟩
  | returnFailure1 (p : TaskPhase) :
      LockStep ⟨true, TaskPhase.critical, p⟩ ⟨false, TaskPhase.finished, p⟩
  | call2 (l : Bool) (p : TaskPhase) :
      LockStep ⟨l, p, TaskPhase.outside⟩ ⟨l, p, TaskPhase.waiting⟩
  | acquire2 (p : TaskPhase) :
      LockStep ⟨false, p, TaskPhase.waiting⟩ ⟨true, p, TaskPhase.critical⟩
  | returnSuccess2 (p : TaskPhase) :
      LockStep ⟨true, p, TaskPhase.critical⟩ ⟨false, p, TaskPhase.finished⟩
  | returnFailure2 (p : TaskPhase) :
      LockStep ⟨true, p, TaskPhase.critical⟩ ⟨false, p, TaskPhase.finished⟩

/-- Initial state: lock free, neither caller has invoked refactor_method. -/
def initialExecutorState : ExecutorState :=
  ⟨false, TaskPhase.outside, TaskPhase.outside⟩

/-- States reachable by interleaving the two callers. -/
def ReachableExec (s : ExecutorState) : Prop :=
  Relation.ReflTransGen LockStep initialExecutorState s

/-- Executor lock invariant: the lock is held exactly when one caller is
inside the locked section, and never two at once. -/
def ExecInv (s : ExecutorState) : Prop :=
  (s.lockHeld = true ↔ (s.pc1 = TaskPhase.critical ∨ s.pc2 = TaskPhase.critical))
  ∧ ¬(s.pc1 = TaskPhase.critical ∧ s.pc2 = TaskPhase.critical)

/-- Embedding of app/config.py Settings with its literal defaults. -/
structure Settings where
  app_name : String := "Pharo Reviewer Agent API"
  app_version : String := "1.0.0"
  debug : Bool := false
  google_api_key : String := ""
  model_id : String := "gemini-3-pro-preview"
  pharo_server_url : String := "http://localhost:8086"
  pharo_mcp_server_command : String := "uv"
  pharo_mcp_server_args : List String := ["run", "pharo-smalltalk-interop-mcp-server"]
  pharo_mcp_server_cwd : String := ""
  pharo_mcp_timeout : Nat := 30
  max_validation_iterations : Nat := 3
  cors_origins : List String := ["*"]
  cors_allow_credentials : Bool := true
  cors_allow_methods : List String := ["*"]
  cors_allow_headers : List String := ["*"]

/-- Settings instance with every field at its config.py default. -/
def defaultSettings : Settings := {}

/-- Terminal protocol states of the Bounded Refinement Loop (spec
section 4.5). -/
inductive LoopExitState where
  | ITERATING
  | EXITED
  | CAPPED
deriving DecidableEq

/-- The run-scoped state the loop stages touch: the two blackboard keys
written by the Validator and Refiner stages, and the escalate flag set
through the exit_validation_loop tool. -/
structure LoopBlackboard where
  refactored_code : List Char
  validation_result : List Char
  escalate : Bool

/-- Modelled from the spec: the LoopAgent execution semantics are
external library code (google.adk, not under src); per spec section
4.5, each iteration runs Validator then Refiner and increments the
counter, the escalate flag is checked after each full iteration, the
loop is EXITED on escalate and CAPPED when the counter reaches the
configured maximum without escalate. `fuel` is the number of
iterations still allowed; `count` the number already run. -/
def runLoopAux (validator refiner : LoopBlackboard → LoopBlackboard) :
    Nat → Nat → LoopBlackboard → LoopBlackboard × LoopExitState × Nat
  | 0, count, bb => (bb, LoopExitState.CAPPED, count)
  | fuel + 1, count, bb =>
    let bb2 := refiner (validator bb)
    if bb2.escalate then (bb2, LoopExitState.EXITED, count + 1)
    else runLoopAux validator refiner fuel (count + 1) bb2

/-- The Bounded Refinement Loop: at most maxIter Validator-then-Refiner
iterations (the ValidationLoop of agent_service.py lines 262-266, whose
cap is settings.max_validation_iterations). -/
def runValidationLoop (maxIter : Nat)
    (validator refiner : LoopBlackboard → LoopBlackboard)
    (bb : LoopBlackboard) : LoopBlackboard × LoopExitState × Nat :=
  runLoopAux validator refiner maxIter 0 bb

/-- A Validator stage that always reports NEEDS IMPROVEMENT into the
validation_result output key (the scenario of the loop-cap property). -/
def alwaysNeedsImprovement (bb : LoopBlackboard) : LoopBlackboard :=
  { bb with validation_result := ("NEEDS IMPROVEMENT: use intention revealing names").toList }

/-- The Refiner stage contract from the RefinerAgent instruction
(agent_service.py lines 195-197): when validation_result starts with
APPROVED it calls the exit_validation_loop tool, setting escalate;
otherwise it overwrites refactored_code with an improved candidate. -/
def contractRefiner (improve : LoopBlackboard → List Char)
    (bb : LoopBlackboard) : LoopBlackboard :=
  if (("APPROVED").toList).isPrefixOf bb.validation_result then
    { bb with escalate := true }
  else { bb with refactored_code := improve bb }

/-- Names of the four sub-agents of the SequentialAgent, in pipeline
order (agent_service.py lines 268-271). -/
def pipelineStageNames : List String :=
  ["ReviewerAgent", "InitialWriterAgent", "ValidationLoop", "ReleaseAgent"]

/-- Modelled from the spec: the SequentialAgent runner is external
library code (google.adk, not under src); per spec section 4.6 the
pipeline is the fixed composition Reviewer, InitialWriter, Bounded
Refinement Loop, Release, the loop output feeding the Release stage.
Returns the final blackboard, the loop terminal state and iteration
count, and the stage names that ran. -/
def runPipelineModel (reviewer writer release : LoopBlackboard → LoopBlackboard)
    (maxIter : Nat) (validator refiner : LoopBlackboard → LoopBlackboard)
    (bb : LoopBlackboard) : LoopBlackboard × LoopExitState × Nat × List String :=
  let afterWriter := writer (reviewer bb)
  let loopOut := runValidationLoop maxIter validator refiner afterWriter
  (release loopOut.1, loopOut.2.1, loopOut.2.2, pipelineStageNames)

/-- The escalate actions record of a tool invocation context. -/
structure EventActions where
  escalate : Bool

/-- A tool invocation context; `actions` is optional to model the
hasattr guard in the source. -/
structure ToolContext where
  actions : Option EventActions

/-- The status dictionary returned by exit_validation_loop. -/
structure ToolStatus where
  status : String
  message : String
deriving DecidableEq

/-- Embedding of AgentService.exit_validation_loop (agent_service.py
lines 63-69). The Python guard
`if tool_context and hasattr(tool_context, ...)` is modelled by an
optional context carrying an optional actions record; a missing context
or a context without actions is the outside-loop-context case. Returns
the (possibly updated) context and the status dictionary. -/
def exit_validation_loop (tc : Option ToolContext) :
    Option ToolContext × ToolStatus :=
  match tc with
  | some ctx =>
    match ctx.actions with
    | some acts =>
      (some { ctx with actions := some { acts with escalate := true } },
        ⟨"approved", "Code validated. Exiting validation loop."⟩)
    | none => (some ctx, ⟨"error", "Failed to exit loop: tool_context missing."⟩)
  | none => (none, ⟨"error", "Failed to exit loop: tool_context missing."⟩)

/-- Code points Python str.isspace treats as whitespace; str.strip with
no argument strips exactly these. -/
def pyWhitespaceCodes : List Nat :=
  [0x09, 0x0a, 0x0b, 0x0c, 0x0d, 0x1c, 0x1d, 0x1e, 0x1f, 0x20, 0x85, 0xa0,
   0x1680, 0x2000, 0x2001, 0x2002, 0x2003, 0x2004, 0x2005, 0x2006, 0x2007,
   0x2008, 0x2009, 0x200a, 0x2028, 0x2029, 0x202f, 0x205f, 0x3000]

/-- Whether a character is Python whitespace. -/
def isPySpace (c : Char) : Bool := pyWhitespaceCodes.contains c.toNat

/-- Embedding of Python str.strip() with no argument: removes leading
and trailing whitespace. -/
def pyStrip (s : List Char) : List Char :=
  ((s.dropWhile isPySpace).reverse.dropWhile isPySpace).reverse

/-- Embedding of RefactorRequest.validate_not_empty (app/models.py
lines 22-28): rejects a value that strips to empty, otherwise returns
the stripped value. -/
def validate_not_empty (v : List Char) : Except (List Char) (List Char) :=
  if (pyStrip v).isEmpty then
    Except.error (("Field cannot be empty or whitespace only").toList)
  else Except.ok (pyStrip v)

/-- Construction of a RefactorRequest (app/models.py): the validator
runs on class_name and method_name; any failure is a validation error. -/
def mkRefactorRequest (class_name method_name : List Char) :
    Except (List Char) (List Char × List Char) :=
  match validate_not_empty class_name, validate_not_empty method_name with
  | Except.ok c, Except.ok m => Except.ok (c, m)
  | Except.error e, _ => Except.error e
  | _, Except.error e => Except.error e

/-- The inbound boundary (app/routers/refactor.py): the request model is
validated first; only a validated (stripped) request ever reaches
AgentService.refactor_method, a validation failure never starts a
pipeline run. -/
def handleRefactorRequest (α : Type) (class_name method_name : List Char)
    (runPipeline : List Char → Except PyException α) :
    Except (List Char) (RunRecord α) :=
  match mkRefactorRequest class_name method_name with
  | Except.error e => Except.error e
  | Except.ok (c, m) => Except.ok (refactor_method α c m runPipeline)

theorem parseQuoted_escapedLine (l : List Char) :
    ∀ rest : List Char, rest.head? ≠ some quoteChar →
      parseQuoted (escapedLine l ++ (quoteChar :: rest)) = some (l, rest) := by
  induction l with
  | nil =>
    intro rest h
    cases rest with
    | nil => simp [escapedLine, pyReplaceChar, parseQuoted]
    | cons c2 r2 =>
      have hc2 : c2 ≠ quoteChar := by
        intro he
        exact h (by simp [he])
      simp [escapedLine, pyReplaceChar, parseQuoted, hc2]
  | cons c l ih =>
    intro rest h
    by_cases hc : c = quoteChar
    · subst hc
      simp only [escapedLine, pyReplaceChar, if_pos rfl] at *
      have := ih rest h
      simp [parseQuoted, List.append_assoc]
      simp only [escapedLine] at this
      simp [this]
    · simp only [escapedLine, pyReplaceChar, if_neg hc] at *
      have := ih rest h
      simp only [escapedLine] at this
      simp only [List.cons_append, List.nil_append]
      rw [parseQuoted.eq_def]
      simp [hc, this]

theorem crSeparator_ne_nil : crSeparator ≠ [] := by decide

theorem crSeparator_head : crSeparator.head? = some ',' := by decide

theorem decodeSegmentsAux_encode (ls : List (List Char)) :
    ∀ fuel : Nat, ls ≠ [] → ls.length ≤ fuel →
      decodeSegmentsAux fuel (pyJoin crSeparator (ls.map pharoLineLiteral)) = some ls := by
  induction ls with
  | nil => intro fuel h; exact absurd rfl h
  | cons l t ih =>
    intro fuel _ hlen
    obtain ⟨fuel, rfl⟩ : ∃ f, fuel = f + 1 := by
      cases fuel with
      | zero => simp at hlen
      | succ f => exact ⟨f, rfl⟩
    cases t with
    | nil =>
      have hq : parseQuoted (escapedLine l ++ (quoteChar :: [])) = some (l, []) :=
        parseQuoted_escapedLine l [] (by simp)
      simp only [List.map_cons, List.map_nil, pyJoin, pharoLineLiteral]
      rw [decodeSegmentsAux]
      simp [hq]
    | cons l2 t2 =>
      have hjoin : pyJoin crSeparator ((l :: l2 :: t2).map pharoLineLiteral)
          = pharoLineLiteral l ++ crSeparator ++
            pyJoin crSeparator ((l2 :: t2).map pharoLineLiteral) := by
        simp [pyJoin]
      set rest := pyJoin crSeparator ((l2 :: t2).map pharoLineLiteral) with hrest
      have hq : parseQuoted (escapedLine l ++ (quoteChar :: (crSeparator ++ rest)))
          = some (l, crSeparator ++ rest) := by
        apply parseQuoted_escapedLine
        rw [List.head?_append_of_ne_nil _ crSeparator_ne_nil, crSeparator_head]
        decide
      have hrest2 : crSeparator ++ rest ≠ [] := by
        simp [crSeparator_ne_nil]
      rw [hjoin]
      simp only [pharoLineLiteral, List.cons_append, List.append_assoc]
      rw [decodeSegmentsAux]
      simp only [List.nil_append, reduceIte]
      rw [hq]
      have hpref : crSeparator.isPrefixOf (crSeparator ++ rest) = true := by
        rw [List.isPrefixOf_iff_prefix]
        exact List.prefix_append _ _
      simp only [hrest2, hpref, List.drop_left, reduceIte, ite_true, ite_false]
      rw [ih fuel (by simp) (by simpa using Nat.le_of_succ_le_succ hlen)]

theorem length_le_pyJoin (ls : List (List Char)) :
    ls.length ≤ (pyJoin crSeparator (ls.map pharoLineLiteral)).length := by
  induction ls with
  | nil => simp [pyJoin]
  | cons l t ih =>
    cases t with
    | nil => simp [pyJoin, pharoLineLiteral]
    | cons l2 t2 =>
      have hjoin : pyJoin crSeparator ((l :: l2 :: t2).map pharoLineLiteral)
          = pharoLineLiteral l ++ crSeparator ++
            pyJoin crSeparator ((l2 :: t2).map pharoLineLiteral) := by
        simp [pyJoin]
      rw [hjoin]
      simp only [List.length_append, List.length_cons]
      have hsep : crSeparator.length = 25 := by decide
      simp only [List.length_cons] at ih
      omega

theorem splitlinesGo_ne_nil (cur s : List Char) :
    cur ≠ [] ∨ s ≠ [] → splitlinesGo cur s ≠ [] := by
  induction cur, s using splitlinesGo.induct with
  | case1 cur hemp =>
    intro h
    have hcur : cur = [] := by simpa using hemp
    rcases h with h | h
    · exact absurd hcur h
    · exact absurd rfl h
  | case2 cur hemp =>
    intro _
    simp [splitlinesGo, hemp]
  | case3 cur rest ih =>
    intro _
    simp [splitlinesGo]
  | case4 cur c rest hpat hb ih =>
    intro _
    rw [splitlinesGo.eq_def]
    split <;> simp_all
  | case5 cur c rest hpat hb ih =>
    intro hor
    have hstep : splitlinesGo cur (c :: rest) = splitlinesGo (c :: cur) rest := by
      rw [splitlinesGo.eq_def]
      split
      · rename_i heq
        exact absurd heq (by simp)
      · rename_i r2 heq
        injection heq with h1 h2
        exact (hpat r2 h1 h2).elim
      · rename_i c2 r2 hp2 heq
        injection heq with h1 h2
        subst h1
        subst h2
        rw [if_neg hb]
    rw [hstep]
    exact ih (Or.inl (by simp))

theorem splitlinesGo_cons_boundary (cur : List Char) (c : Char) (rest : List Char)
    (hpat : ∀ r2 : List Char, c = '\r' → rest = '\n' :: r2 → False)
    (hb : isLineBoundary c = true) :
    splitlinesGo cur (c :: rest) = cur.reverse :: splitlinesGo [] rest := by
  rw [splitlinesGo.eq_def]
  split
  · rename_i heq
    exact absurd heq (by simp)
  · rename_i r2 heq
    injection heq with h1 h2
    exact (hpat r2 h1 h2).elim
  · rename_i c2 r2 hp2 heq
    injection heq with h1 h2
    subst h1
    subst h2
    rw [if_pos hb]

theorem splitlinesGo_cons_plain (cur : List Char) (c : Char) (rest : List Char)
    (hpat : ∀ r2 : List Char, c = '\r' → rest = '\n' :: r2 → False)
    (hb : isLineBoundary c = false) :
    splitlinesGo cur (c :: rest) = splitlinesGo (c :: cur) rest := by
  rw [splitlinesGo.eq_def]
  split
  · rename_i heq
    exact absurd heq (by simp)
  · rename_i r2 heq
    injection heq with h1 h2
    exact (hpat r2 h1 h2).elim
  · rename_i c2 r2 hp2 heq
    injection heq with h1 h2
    subst h1
    subst h2
    rw [if_neg (by simp [hb])]

theorem splitlinesGo_no_boundary (cur s : List Char) :
    (∀ c ∈ cur, isLineBoundary c = false) →
    ∀ l ∈ splitlinesGo cur s, ∀ c ∈ l, isLineBoundary c = false := by
  induction cur, s using splitlinesGo.induct with
  | case1 cur hemp =>
    intro hcur l hl
    simp [splitlinesGo, hemp] at hl
  | case2 cur hemp =>
    intro hcur l hl c hc
    simp [splitlinesGo, hemp] at hl
    subst hl
    exact hcur c (by simpa using hc)
  | case3 cur rest ih =>
    intro hcur l hl c hc
    simp only [splitlinesGo, List.mem_cons] at hl
    rcases hl with h1 | h2
    · subst h1
      exact hcur c (by simpa using hc)
    · exact ih (by simp) l h2 c hc
  | case4 cur c0 rest hpat hb ih =>
    intro hcur l hl c hc
    rw [splitlinesGo_cons_boundary cur c0 rest hpat hb] at hl
    rcases List.mem_cons.1 hl with h1 | h2
    · subst h1
      exact hcur c (by simpa using hc)
    · exact ih (by simp) l h2 c hc
  | case5 cur c0 rest hpat hb ih =>
    intro hcur l hl c hc
    rw [splitlinesGo_cons_plain cur c0 rest hpat (by simpa using hb)] at hl
    refine ih ?_ l hl c hc
    intro d hd
    rcases List.mem_cons.1 hd with h1 | h2
    · subst h1
      simpa using hb
    · exact hcur d h2

theorem mem_pyReplaceChar {c : Char} (old : Char) (new : List Char) :
    ∀ l : List Char, c ∈ pyReplaceChar old new l → c ∈ new ∨ c ∈ l := by
  intro l
  induction l with
  | nil => simp [pyReplaceChar]
  | cons d t ih =>
    simp only [pyReplaceChar]
    intro h
    rcases List.mem_append.1 h with h1 | h2
    · by_cases hd : d = old
      · rw [if_pos hd] at h1
        exact Or.inl h1
      · rw [if_neg hd] at h1
        simp at h1
        subst h1
        exact Or.inr (by simp)
    · rcases ih h2 with h3 | h3
      · exact Or.inl h3
      · exact Or.inr (by simp [h3])

theorem mem_pyJoin {c : Char} (sep : List Char) :
    ∀ ls : List (List Char), c ∈ pyJoin sep ls → c ∈ sep ∨ ∃ l ∈ ls, c ∈ l := by
  intro ls
  induction ls with
  | nil => simp [pyJoin]
  | cons x t ih =>
    cases t with
    | nil =>
      intro h
      simp only [pyJoin] at h
      exact Or.inr ⟨x, by simp, h⟩
    | cons y t2 =>
      intro h
      have hx : pyJoin sep (x :: y :: t2) = x ++ sep ++ pyJoin sep (y :: t2) := by
        simp [pyJoin]
      rw [hx] at h
      rcases List.mem_append.1 h with h1 | h2
      · rcases List.mem_append.1 h1 with ha | hb
        · exact Or.inr ⟨x, by simp, ha⟩
        · exact Or.inl hb
      · rcases ih h2 with h3 | ⟨l, hl, hc⟩
        · exact Or.inl h3
        · exact Or.inr ⟨l, by simp [hl], hc⟩

/-- C1: for every non-empty code, conceptually decoding the output of
generate_compilation_script (extracting the quoted segments joined by
the Character cr separator and un-doubling every doubled quote)
reconstructs exactly the splitlines decomposition of the code. -/
theorem decode_encode_roundtrip (class_name code : List Char) (h : code ≠ []) :
    decodeScript class_name (generate_compilation_script class_name code)
      = some (pySplitlines code) := by
  have hls : pySplitlines code ≠ [] := splitlinesGo_ne_nil [] code (Or.inr h)
  unfold generate_compilation_script decodeScript
  rw [if_neg h]
  have hassoc : class_name ++ compileInfix ++
        pyJoin crSeparator ((pySplitlines code).map pharoLineLiteral) ++ [')']
      = (class_name ++ compileInfix) ++
        (pyJoin crSeparator ((pySplitlines code).map pharoLineLiteral) ++ [')']) := by
    simp [List.append_assoc]
  rw [hassoc]
  have hpref : (class_name ++ compileInfix).isPrefixOf
      ((class_name ++ compileInfix) ++
        (pyJoin crSeparator ((pySplitlines code).map pharoLineLiteral) ++ [')'])) = true := by
    rw [List.isPrefixOf_iff_prefix]
    exact List.prefix_append _ _
  rw [if_pos hpref]
  simp only [List.drop_left, List.getLast?_concat, List.dropLast_concat, reduceIte,
    List.length_append]
  have hlen : (pySplitlines code).length ≤
      (pyJoin crSeparator ((pySplitlines code).map pharoLineLiteral)).length + 1 :=
    le_trans (length_le_pyJoin _) (Nat.le_succ _)
  simpa using decodeSegmentsAux_encode (pySplitlines code) _ hls (by simpa using hlen)

/-- Witness for the round-trip property at a concrete two-line input. -/
theorem decode_encode_roundtrip_witness :
    decodeScript (String.toList "C")
        (generate_compilation_script (String.toList "C") (String.toList "ab\ncd"))
      = some [['a', 'b'], ['c', 'd']] :=
  (decode_encode_roundtrip (String.toList "C") (String.toList "ab\ncd")
    (by decide)).trans (by decide)

theorem pyReplaceChar_eq_flatMap (old : Char) (new : List Char) :
    ∀ l : List Char, pyReplaceChar old new l
      = l.flatMap (fun c => if c = old then new else [c]) := by
  intro l
  induction l with
  | nil => simp [pyReplaceChar]
  | cons d t ih => simp [pyReplaceChar, ih]

theorem pyJoin_eq_intercalate (sep : List Char) : ∀ ls : List (List Char),
    pyJoin sep ls = List.intercalate sep ls := by
  intro ls
  induction ls with
  | nil => simp [pyJoin, List.intercalate, List.intersperse]
  | cons x t ih =>
    cases t with
    | nil => simp [pyJoin, List.intercalate, List.intersperse]
    | cons y t2 =>
      simp only [pyJoin, List.intercalate, List.intersperse] at *
      simp [ih, List.flatten]

/-- C5: for every class name and non-empty code, the generated script is
bit for bit the spec shape: each splitlines line wrapped in single
quotes with embedded quotes doubled, joined by the exact separator
`, Character cr asString, `, wrapped as `class_name compile: (...)`. -/
theorem compilation_script_exact_shape (class_name code : List Char) (h : code ≠ []) :
    generate_compilation_script class_name code
      = specCompileScript class_name (pySplitlines code) := by
  unfold generate_compilation_script specCompileScript
  rw [if_neg h]
  have hlit : ∀ l : List Char, pharoLineLiteral l = specLineLiteral l := by
    intro l
    simp [pharoLineLiteral, specLineLiteral, escapedLine, specDoubleQuotes,
      pyReplaceChar_eq_flatMap]
  have hmap : (pySplitlines code).map pharoLineLiteral
      = (pySplitlines code).map specLineLiteral := by
    exact List.map_congr_left (fun l _ => hlit l)
  rw [pyJoin_eq_intercalate, hmap]
  rfl

/-- Witness for the exact-shape property at a concrete input. -/
theorem compilation_script_exact_shape_witness :
    generate_compilation_script (String.toList "C") (String.toList "x")
      = specCompileScript (String.toList "C") (pySplitlines (String.toList "x")) :=
  compilation_script_exact_shape (String.toList "C") (String.toList "x") (by decide)

/-- C6 counterexample: the claim quantifies over every class_name, but a
class name containing a newline is copied verbatim into the script, so
the output is not a single line. -/
theorem newline_in_script_counterexample :
    '\n' ∈ generate_compilation_script (String.toList "A\nB") (String.toList "x") := by
  decide

/-- C6 amended: for every class_name not containing a newline character
and every code, the generated script contains no literal newline
character (the code side never contributes one: splitlines removes all
line boundaries and the separator and quoting add none). -/
theorem compilation_script_single_line (class_name code : List Char)
    (h : '\n' ∉ class_name) : '\n' ∉ generate_compilation_script class_name code := by
  unfold generate_compilation_script
  by_cases hc : code = []
  · simp [hc]
  · rw [if_neg hc]
    intro hmem
    rcases List.mem_append.1 hmem with h1 | h2
    · rcases List.mem_append.1 h1 with h3 | h4
      · rcases List.mem_append.1 h3 with h5 | h6
        · exact h h5
        · exact absurd h6 (by decide)
      · rcases mem_pyJoin crSeparator _ h4 with hs | ⟨lit, hlit, hcl⟩
        · exact absurd hs (by decide)
        · rcases List.mem_map.1 hlit with ⟨line, hline, rfl⟩
          simp only [pharoLineLiteral, escapedLine, List.mem_cons, List.mem_append,
            List.mem_singleton] at hcl
          rcases hcl with hq | he | hq2
          · exact absurd hq (by decide)
          · rcases mem_pyReplaceChar quoteChar _ _ he with hn | hl2
            · exact absurd hn (by decide)
            · have hbound := splitlinesGo_no_boundary [] code (by simp) line hline '\n' hl2
              exact absurd hbound (by decide)
          · exact absurd hq2 (by decide)
    · exact absurd h2 (by decide)

/-- Witness for the amended single-line property at a concrete input. -/
theorem compilation_script_single_line_witness :
    '\n' ∉ generate_compilation_script (String.toList "C") (String.toList "a\nb") :=
  compilation_script_single_line (String.toList "C") (String.toList "a\nb") (by decide)

/-- C7: for every class_name, empty code yields the empty string. -/
theorem compilation_script_empty_code (class_name : List Char) :
    generate_compilation_script class_name [] = [] := rfl

/-- C8: a line consisting of a single quote character is escaped to two
consecutive quote characters inside its quoted literal, and the whole
script for that line is `class_name compile: ('''')`: the quote
character is neither dropped nor does the encoder fail on it. -/
theorem single_quote_line_doubled :
    escapedLine [quoteChar] = [quoteChar, quoteChar]
    ∧ pharoLineLiteral [quoteChar] = [quoteChar, quoteChar, quoteChar, quoteChar]
    ∧ ∀ class_name : List Char,
        generate_compilation_script class_name [quoteChar]
          = class_name ++ compileInfix ++
            [quoteChar, quoteChar, quoteChar, quoteChar, ')'] := by
  refine ⟨by decide, by decide, ?_⟩
  intro class_name
  unfold generate_compilation_script
  rw [if_neg (by decide)]
  have hj : pyJoin crSeparator ((pySplitlines [quoteChar]).map pharoLineLiteral)
      = [quoteChar, quoteChar, quoteChar, quoteChar] := by decide
  rw [hj]
  simp [List.append_assoc]

/-- C2: every error raised inside a run is converted into the structured
failure record with success false and the exception message; the success
path returns the structured success record. refactor_method is total
into RunRecord, so no exception propagates out of it. -/
theorem refactor_method_error_boundary (α : Type) (class_name method_name : List Char)
    (runPipeline : List Char → Except PyException α) :
    (∀ e : PyException,
      runPipeline (promptOf class_name method_name) = Except.error e →
      refactor_method α class_name method_name runPipeline
        = ⟨false, class_name, method_name, none, some e.msg⟩)
    ∧ (∀ r : α,
      runPipeline (promptOf class_name method_name) = Except.ok r →
      refactor_method α class_name method_name runPipeline
        = ⟨true, class_name, method_name, some r, none⟩) := by
  constructor <;> intro x hx <;> simp [refactor_method, hx]

/-- Witness: a run whose pipeline raises returns the failure record. -/
theorem refactor_method_error_boundary_witness :
    refactor_method (List Char) [] [] (fun _ => Except.error ⟨['b']⟩)
      = ⟨false, [], [], none, some ['b']⟩ :=
  (refactor_method_error_boundary (List Char) [] [] (fun _ => Except.error ⟨['b']⟩)).1
    ⟨['b']⟩ rfl

theorem execInv_init : ExecInv initialExecutorState := by
  constructor <;> simp [ExecInv, initialExecutorState]

theorem execInv_step {s t : ExecutorState} (h : LockStep s t) (hs : ExecInv s) :
    ExecInv t := by
  cases h with
  | call1 l p => cases l <;> cases p <;> simp_all [ExecInv]
  | acquire1 p => cases p <;> simp_all [ExecInv]
  | returnSuccess1 p => cases p <;> simp_all [ExecInv]
  | returnFailure1 p => cases p <;> simp_all [ExecInv]
  | call2 l p => cases l <;> cases p <;> simp_all [ExecInv]
  | acquire2 p => cases p <;> simp_all [ExecInv]
  | returnSuccess2 p => cases p <;> simp_all [ExecInv]
  | returnFailure2 p => cases p <;> simp_all [ExecInv]

/-- C3: in every reachable interleaving of two refactor_method calls,
the two callers are never both inside the locked section, and is_busy
reports true exactly while some caller is inside it (the lock is
acquired before the pipeline work of the critical phase and released by
both the success and the failure return). -/
theorem executor_mutual_exclusion (s : ExecutorState) (h : ReachableExec s) :
    ¬(s.pc1 = TaskPhase.critical ∧ s.pc2 = TaskPhase.critical)
    ∧ (is_busy s = true ↔ (s.pc1 = TaskPhase.critical ∨ s.pc2 = TaskPhase.critical)) := by
  have hinv : ExecInv s := by
    induction h with
    | refl => exact execInv_init
    | tail _ hstep ih => exact execInv_step hstep ih
  exact ⟨hinv.2, hinv.1⟩

/-- Witness: the state where caller one has acquired the lock is
reachable; there the exclusion and busy properties hold. -/
theorem executor_mutual_exclusion_witness :
    ¬((⟨true, TaskPhase.critical, TaskPhase.outside⟩ : ExecutorState).pc1 = TaskPhase.critical
        ∧ (⟨true, TaskPhase.critical, TaskPhase.outside⟩ : ExecutorState).pc2 = TaskPhase.critical)
    ∧ (is_busy ⟨true, TaskPhase.critical, TaskPhase.outside⟩ = true
        ↔ ((⟨true, TaskPhase.critical, TaskPhase.outside⟩ : ExecutorState).pc1 = TaskPhase.critical
          ∨ (⟨true, TaskPhase.critical, TaskPhase.outside⟩ : ExecutorState).pc2 = TaskPhase.critical)) :=
  executor_mutual_exclusion ⟨true, TaskPhase.critical, TaskPhase.outside⟩
    (Relation.ReflTransGen.tail
      (Relation.ReflTransGen.tail Relation.ReflTransGen.refl
        (LockStep.call1 false TaskPhase.outside))
      (LockStep.acquire1 TaskPhase.outside))

theorem contractRefiner_step_escalate (improve : LoopBlackboard → List Char)
    (b : LoopBlackboard) :
    (contractRefiner improve (alwaysNeedsImprovement b)).escalate = b.escalate := by
  have hnp : (String.toList "APPROVED").isPrefixOf
      (alwaysNeedsImprovement b).validation_result = false := by
    simp only [alwaysNeedsImprovement]
    decide
  simp [contractRefiner, hnp, alwaysNeedsImprovement]

theorem runLoopAux_caps (improve : LoopBlackboard → List Char) :
    ∀ (n count : Nat) (b : LoopBlackboard), b.escalate = false →
      ∃ bF : LoopBlackboard,
        runLoopAux alwaysNeedsImprovement (contractRefiner improve) n count b
          = (bF, LoopExitState.CAPPED, count + n) ∧ bF.escalate = false := by
  intro n
  induction n with
  | zero =>
    intro count b hb
    exact ⟨b, by simp [runLoopAux], hb⟩
  | succ n ih =>
    intro count b hb
    have hb2 : (contractRefiner improve (alwaysNeedsImprovement b)).escalate = false := by
      rw [contractRefiner_step_escalate]
      exact hb
    obtain ⟨bF, heq, hF⟩ := ih (count + 1) _ hb2
    refine ⟨bF, ?_, hF⟩
    rw [runLoopAux]
    simp only [hb2, Bool.false_eq_true, reduceIte]
    rw [heq]
    simp only [Prod.mk.injEq, and_true, true_and]
    omega

/-- C4: with the configured cap (max_validation_iterations, default 3)
and a Validator that always reports NEEDS IMPROVEMENT, the Bounded
Refinement Loop runs exactly 3 Validator-then-Refiner iterations, ends
CAPPED with the escalate flag never set, and the downstream Release
stage still runs on the loop result. -/
theorem validation_loop_caps_at_max
    (improve : LoopBlackboard → List Char)
    (reviewer writer release : LoopBlackboard → LoopBlackboard)
    (bb0 : LoopBlackboard)
    (h : (writer (reviewer bb0)).escalate = false) :
    ∃ bbF : LoopBlackboard,
      runValidationLoop defaultSettings.max_validation_iterations
          alwaysNeedsImprovement (contractRefiner improve) (writer (reviewer bb0))
        = (bbF, LoopExitState.CAPPED, 3)
      ∧ bbF.escalate = false
      ∧ runPipelineModel reviewer writer release
          defaultSettings.max_validation_iterations
          alwaysNeedsImprovement (contractRefiner improve) bb0
        = (release bbF, LoopExitState.CAPPED, 3, pipelineStageNames)
      ∧ "ReleaseAgent" ∈ pipelineStageNames := by
  obtain ⟨bF, heq, hF⟩ := runLoopAux_caps improve 3 0 (writer (reviewer bb0)) h
  have hloop : runValidationLoop defaultSettings.max_validation_iterations
      alwaysNeedsImprovement (contractRefiner improve) (writer (reviewer bb0))
      = (bF, LoopExitState.CAPPED, 3) := by
    rw [runValidationLoop]
    simpa using heq
  refine ⟨bF, hloop, hF, ?_, by simp [pipelineStageNames]⟩
  simp only [runPipelineModel, hloop]

/-- Witness: the loop-cap run at concrete stage functions and an empty
initial blackboard. -/
theorem validation_loop_caps_at_max_witness :
    ∃ bbF : LoopBlackboard,
      runValidationLoop defaultSettings.max_validation_iterations
          alwaysNeedsImprovement (contractRefiner (fun _ => []))
          (id (id (⟨[], [], false⟩ : LoopBlackboard)))
        = (bbF, LoopExitState.CAPPED, 3)
      ∧ bbF.escalate = false
      ∧ runPipelineModel id id id
          defaultSettings.max_validation_iterations
          alwaysNeedsImprovement (contractRefiner (fun _ => []))
          (⟨[], [], false⟩ : LoopBlackboard)
        = (id bbF, LoopExitState.CAPPED, 3, pipelineStageNames)
      ∧ "ReleaseAgent" ∈ pipelineStageNames :=
  validation_loop_caps_at_max (fun _ => []) id id id ⟨[], [], false⟩ rfl

/-- C9: calling exit_validation_loop outside a loop context (no tool
context, or a context without an actions record) is a no-op that leaves
the context unchanged and returns an explanatory error status instead of
failing; calling it with an actions record sets the escalate flag and
returns the approved status. -/
theorem exit_loop_context_dichotomy (tc : Option ToolContext) :
    ((tc = none ∨ ∃ c : ToolContext, tc = some c ∧ c.actions = none) →
      (exit_validation_loop tc).1 = tc
      ∧ (exit_validation_loop tc).2.status = "error"
      ∧ (exit_validation_loop tc).2.message = "Failed to exit loop: tool_context missing.")
    ∧ (∀ (c : ToolContext) (a : EventActions), tc = some c → c.actions = some a →
      (exit_validation_loop tc).1
          = some { c with actions := some { a with escalate := true } }
      ∧ (exit_validation_loop tc).2.status = "approved") := by
  constructor
  · rintro (rfl | ⟨c, rfl, hact⟩)
    · simp [exit_validation_loop]
    · simp [exit_validation_loop, hact]
  · rintro c a rfl hact
    simp [exit_validation_loop, hact]

/-- Witness: the missing-context call is a no-op with the error status. -/
theorem exit_loop_context_dichotomy_witness :
    (exit_validation_loop none).1 = none
    ∧ (exit_validation_loop none).2.status = "error"
    ∧ (exit_validation_loop none).2.message = "Failed to exit loop: tool_context missing." :=
  (exit_loop_context_dichotomy none).1 (Or.inl rfl)

theorem pyStrip_eq_nil_of_all_space {v : List Char}
    (h : ∀ c ∈ v, isPySpace c = true) : pyStrip v = [] := by
  have h1 : v.dropWhile isPySpace = [] := List.dropWhile_eq_nil_iff.2 h
  simp [pyStrip, h1]

theorem validate_not_empty_error_msg (v e : List Char)
    (h : validate_not_empty v = Except.error e) :
    e = String.toList "Field cannot be empty or whitespace only" := by
  rw [validate_not_empty] at h
  split at h
  · injection h with h2
    exact h2.symm
  · exact absurd h (by simp)

/-- C10: at the inbound boundary, a class_name or method_name that is
empty or whitespace-only is rejected with the validation error before
any pipeline run starts, and on acceptance the service receives the
whitespace-stripped values. -/
theorem request_validation_boundary (α : Type) (class_name method_name : List Char)
    (runPipeline : List Char → Except PyException α) :
    ((∀ c ∈ class_name, isPySpace c = true) →
      handleRefactorRequest α class_name method_name runPipeline
        = Except.error (String.toList "Field cannot be empty or whitespace only"))
    ∧ ((∀ c ∈ method_name, isPySpace c = true) →
      handleRefactorRequest α class_name method_name runPipeline
        = Except.error (String.toList "Field cannot be empty or whitespace only"))
    ∧ (pyStrip class_name ≠ [] → pyStrip method_name ≠ [] →
      handleRefactorRequest α class_name method_name runPipeline
        = Except.ok (refactor_method α (pyStrip class_name) (pyStrip method_name)
            runPipeline)) := by
  refine ⟨?_, ?_, ?_⟩
  · intro h
    have h1 := pyStrip_eq_nil_of_all_space h
    simp [handleRefactorRequest, mkRefactorRequest, validate_not_empty, h1]
  · intro h
    have h1 := pyStrip_eq_nil_of_all_space h
    have hmn : validate_not_empty method_name
        = Except.error (String.toList "Field cannot be empty or whitespace only") := by
      simp [validate_not_empty, h1]
    cases hcn : validate_not_empty class_name with
    | ok c => simp [handleRefactorRequest, mkRefactorRequest, hcn, hmn]
    | error e =>
      have he := validate_not_empty_error_msg class_name e hcn
      subst he
      simp [handleRefactorRequest, mkRefactorRequest, hcn]
  · intro h1 h2
    simp [handleRefactorRequest, mkRefactorRequest, validate_not_empty,
      List.isEmpty_iff, h1, h2]

/-- Witness: a whitespace-only class_name is rejected; a valid request
is stripped and runs. -/
theorem request_validation_boundary_witness :
    handleRefactorRequest (List Char) [' '] (String.toList "m")
        (fun _ => Except.ok [])
      = Except.error (String.toList "Field cannot be empty or whitespace only") :=
  (request_validation_boundary (List Char) [' '] (String.toList "m")
    (fun _ => Except.ok [])).1 (by decide)

end PharoAgent
